import Mathlib

/-
Verification of the FastSymApi download/cache core.

Shallow embedding of the Python sources:
  - fastsymapi/validation.py  (sanitize_path_component, validate_pdb_entry_fields)
  - fastsymapi/sql_db/crud.py (find/create/modify of SymbolEntry rows)
  - fastsymapi/download.py    (get_pdb_size, _stream_download,
                               download_and_save_symbol, download_symbol)
  - fastsymapi/routes.py      (get_symbol, stream_decompressed_data,
                               cleanup_stale_downloads)

Modelling conventions:
  - Python exceptions are modelled by Option results or explicit `raised` flags.
  - Byte strings are `List Nat`; the gzip codec is an abstract parameter pair
    (comp, decomp) about which theorems assume the library round-trip
    `decomp (comp x) = x` where needed.
  - `int((downloaded / pdb_size) * 100)` is modelled as exact floor division
    `downloaded * 100 / size`; all concrete inputs used below are float-exact.
  - The database session is a list of rows; `modify_pdb_entry` writes a row
    back by its (guid, pdbfile) key (the table has a unique key constraint).
-/

namespace FastSymApi

/-! ## validation.py -/

/-- Character class of the regex `[a-zA-Z0-9._-]` in sanitize_path_component. -/
def allowedChar (c : Char) : Bool :=
  (('a' ≤ c && c ≤ 'z') || ('A' ≤ c && c ≤ 'Z') || ('0' ≤ c && c ≤ '9')
    || c == '.' || c == '_' || c == '-')

/-- Substring test for ".." used by sanitize_path_component. -/
def hasDoubleDot : List Char → Bool
  | '.' :: '.' :: _ => true
  | _ :: rest => hasDoubleDot rest
  | [] => false

/-- Python re.match with pattern `^[a-zA-Z0-9._-]+$`: `$` also matches just
before a single trailing newline, so one trailing `\n` is tolerated. -/
def pyFullMatch (s : List Char) : Bool :=
  let t := if s.getLast? == some '\n' then s.dropLast else s
  !t.isEmpty && t.all allowedChar

/-- validation.sanitize_path_component: returns the component unchanged when
accepted, `none` models the raised ValueError. -/
def sanitize_path_component (component : String) : Option String :=
  if component.isEmpty then none
  else if hasDoubleDot component.data || component.data.contains '/'
      || component.data.contains '\\' then none
  else if !(pyFullMatch component.data) then none
  else some component

/-- Length/emptiness check applied to each field in validate_pdb_entry_fields. -/
def validLen (s : String) : Bool := !s.isEmpty && s.length ≤ 255

/-- validation.validate_pdb_entry_fields: `true` iff no ValueError is raised. -/
def validate_pdb_entry_fields (pdbname guid pdbfile : String) : Bool :=
  validLen pdbname && validLen guid && validLen pdbfile
    && (sanitize_path_component pdbname).isSome
    && (sanitize_path_component guid).isSome
    && (sanitize_path_component pdbfile).isSome

/-! ## sql_db/models.py and sql_db/crud.py -/

/-- models.SymbolEntry row (the id column is irrelevant to the claims). -/
structure SymbolEntry where
  pdbname : String
  guid : String
  pdbfile : String
  downloading : Bool
  found : Bool
deriving Repr, DecidableEq

/-- Row-key predicate used by crud.find_pdb_entry's filter. -/
def keyMatch (guid pdbfile : String) (e : SymbolEntry) : Bool :=
  e.guid == guid && e.pdbfile == pdbfile

/-- crud.find_pdb_entry: first row matching (guid, pdbfile). -/
def find_pdb_entry (db : List SymbolEntry) (guid pdbfile : String) :
    Option SymbolEntry :=
  db.find? (keyMatch guid pdbfile)

/-- crud.find_still_downloading. -/
def find_still_downloading (db : List SymbolEntry) : List SymbolEntry :=
  db.filter (fun e => e.downloading)

/-- crud.create_pdb_entry: a fresh row (downloading defaults to false). -/
def create_pdb_entry (db : List SymbolEntry) (guid pdbname pdbfile : String)
    (found : Bool) : SymbolEntry × List SymbolEntry :=
  let e : SymbolEntry := ⟨pdbname, guid, pdbfile, false, found⟩
  (e, db ++ [e])

/-- crud.modify_pdb_entry: persist the mutated row back by its key. -/
def modify_pdb_entry (db : List SymbolEntry) (e : SymbolEntry) :
    List SymbolEntry :=
  db.map (fun r => if keyMatch e.guid e.pdbfile r then e else r)

/-- download.create_or_find_pdb_entry; `none` models the ValueError raised by
field validation. -/
def create_or_find_pdb_entry (db : List SymbolEntry)
    (guid pdbname pdbfile : String) (found : Bool) :
    Option (SymbolEntry × List SymbolEntry) :=
  if !(validate_pdb_entry_fields pdbname guid pdbfile) then none
  else
    match find_pdb_entry db guid pdbfile with
    | some e => some (e, db)
    | none => some (create_pdb_entry db guid pdbname pdbfile found)

/-! ## download.py -/

/-- A streamed HTTP response as download.py consumes it: status code, the two
size headers (`none` when absent or empty), whether `Content-Encoding`
mentions gzip, the raw wire bytes, and whether reading the body past the
delivered bytes raises (a mid-stream transport failure). -/
structure HttpResp where
  status : Nat
  contentLength : Option Nat
  googLength : Option Nat
  gzipEncoded : Bool
  body : List Nat
  ioError : Bool
deriving Repr, DecidableEq

/-- download.get_pdb_size: first of Content-Length and
x-goog-stored-content-length that is present. -/
def get_pdb_size (r : HttpResp) : Option Nat :=
  match r.contentLength with
  | some n => some n
  | none => r.googLength

/-- Result of the `_stream_download` loop: bytes written to the file handle,
final `downloaded` counter, progress percentages logged in order, and whether
an exception escaped the loop. -/
structure StreamResult where
  written : List Nat
  downloaded : Nat
  log : List Nat
  raised : Bool
deriving Repr, DecidableEq

/-- download._stream_download's while-loop. `resp.raw.read n` is modelled as
taking the next `n` wire bytes; an empty read either ends the loop or, when
the response is flagged `ioError`, raises. The flush bookkeeping
(`chunks_in_memory`) is threaded for fidelity; it does not change the bytes
written. Progress: `percent = int((downloaded / pdb_size) * 100)` modelled as
floor division, bucketed by 5. -/
def streamLoop (chunkSize maxMem size : Nat) (ioError : Bool) (body : List Nat)
    (downloaded chunksInMem : Nat) (lastLogged : Int) : StreamResult :=
  if downloaded < size then
    let c := min chunkSize (size - downloaded)
    let chunk := body.take c
    if h : chunk.isEmpty then
      { written := [], downloaded := downloaded, log := [], raised := ioError }
    else
      let dl := downloaded + chunk.length
      let cim := if (chunksInMem + 1) * chunkSize > maxMem then 0
                 else chunksInMem + 1
      let percent := dl * 100 / size
      let doLog := lastLogged < ((percent / 5 : Nat) : Int)
      let rest := streamLoop chunkSize maxMem size ioError (body.drop c) dl cim
        (if doLog then ((percent / 5 : Nat) : Int) else lastLogged)
      { written := chunk ++ rest.written,
        downloaded := rest.downloaded,
        log := (if doLog then [percent] else []) ++ rest.log,
        raised := rest.raised }
  else
    { written := [], downloaded := downloaded, log := [], raised := false }
termination_by body.length
decreasing_by
  unfold chunk at h
  simp only [List.isEmpty_iff, ← List.length_pos, List.length_take,
    lt_min_iff] at h
  simp only [List.length_drop]
  omega

/-- The per-key filesystem view used by the transfer engine: the temporary
file `tmp_{pdbfile}.gzip` and the final artifact `{pdbfile}.gzip`, each either
absent or holding bytes. -/
structure FS where
  tmp : Option (List Nat)
  final : Option (List Nat)
deriving Repr, DecidableEq

/-- Result of download_and_save_symbol: mutated entry, persisted db, per-key
filesystem, whether an exception propagated to the caller, progress log. -/
structure SaveResult where
  entry : SymbolEntry
  db : List SymbolEntry
  fs : FS
  raised : Bool
  log : List Nat
deriving Repr, DecidableEq

/-- download.download_and_save_symbol. `comp` is the gzip compression applied
by `gzip.open` when the upstream body is not already gzip-encoded. The path
sanitization runs before the try-block: its ValueError propagates with nothing
changed. Missing size headers: entry finalized not-downloading, temp file
removed, normal return. A mid-stream exception: same cleanup, then re-raise.
Otherwise the bytes written are renamed into the final path. -/
def download_and_save_symbol (comp : List Nat → List Nat)
    (chunkSize maxMem : Nat) (e : SymbolEntry) (r : HttpResp)
    (db : List SymbolEntry) (fs : FS) : SaveResult :=
  if (sanitize_path_component e.pdbname).isNone
      || (sanitize_path_component e.guid).isNone
      || (sanitize_path_component e.pdbfile).isNone then
    { entry := e, db := db, fs := fs, raised := true, log := [] }
  else
    let fs1 : FS := { fs with tmp := some [] }
    match get_pdb_size r with
    | none =>
        let e1 := { e with downloading := false }
        { entry := e1, db := modify_pdb_entry db e1,
          fs := { fs1 with tmp := none }, raised := false, log := [] }
    | some size =>
        let s := streamLoop chunkSize maxMem size r.ioError r.body 0 0 (-1)
        if s.raised then
          let e1 := { e with downloading := false }
          { entry := e1, db := modify_pdb_entry db e1,
            fs := { fs1 with tmp := none }, raised := true, log := s.log }
        else
          let content := if r.gzipEncoded then s.written else comp s.written
          { entry := e, db := db,
            fs := { tmp := none, final := some content },
            raised := false, log := s.log }

/-- One configured upstream's behaviour for this request: a transport-level
exception from `session.get`, or a response. -/
inductive Candidate
  | netError
  | resp (r : HttpResp)
deriving Repr, DecidableEq

/-- Result of download_symbol: final entry object, persisted db, per-key
filesystem, and how many network GETs were issued. -/
structure OrchResult where
  entry : SymbolEntry
  db : List SymbolEntry
  fs : FS
  requests : Nat
deriving Repr, DecidableEq

/-- The single finalization point at the end of download_symbol:
`if not found: entry.found = False`, then `entry.downloading = False`, then
one persist. -/
def finalize_download (e : SymbolEntry) (db : List SymbolEntry)
    (found : Bool) : SymbolEntry × List SymbolEntry :=
  let e1 := if found then e else { e with found := false }
  let e2 := { e1 with downloading := false }
  (e2, modify_pdb_entry db e2)

/-- download.download_symbol's for-loop over SYM_URLS. A 200 response first
sets entry.found = True, then runs the transfer; a normal transfer return
sets the local `found` and breaks, an exception is caught and the loop
continues with the next candidate. -/
def downloadLoop (comp : List Nat → List Nat) (chunkSize maxMem : Nat) :
    List Candidate → SymbolEntry → List SymbolEntry → FS → Nat → OrchResult
  | [], e, db, fs, reqs =>
      let p := finalize_download e db false
      { entry := p.1, db := p.2, fs := fs, requests := reqs }
  | Candidate.netError :: rest, e, db, fs, reqs =>
      downloadLoop comp chunkSize maxMem rest e db fs (reqs + 1)
  | Candidate.resp r :: rest, e, db, fs, reqs =>
      if r.status = 200 then
        let e1 := { e with found := true }
        let s := download_and_save_symbol comp chunkSize maxMem e1 r db fs
        if s.raised then
          downloadLoop comp chunkSize maxMem rest s.entry s.db s.fs (reqs + 1)
        else
          let p := finalize_download s.entry s.db true
          { entry := p.1, db := p.2, fs := s.fs, requests := reqs + 1 }
      else
        downloadLoop comp chunkSize maxMem rest e db fs (reqs + 1)

/-- download.download_symbol: field validation first (on ValueError the entry
is persisted not-downloading and no request is made), then the candidate
loop with the shared finalization point. -/
def download_symbol (comp : List Nat → List Nat) (chunkSize maxMem : Nat)
    (cands : List Candidate) (e : SymbolEntry) (db : List SymbolEntry)
    (fs : FS) : OrchResult :=
  if validate_pdb_entry_fields e.pdbname e.guid e.pdbfile then
    downloadLoop comp chunkSize maxMem cands e db fs 0
  else
    let e1 := { e with downloading := false }
    { entry := e1, db := modify_pdb_entry db e1, fs := fs, requests := 0 }

/-! ## routes.py -/

/-- The generator loop inside routes.stream_decompressed_data: yield
`chunk_size`-byte chunks of the decompressed data, stopping early once the
bytes streamed so far exceed the memory ceiling. -/
def streamChunks (chunkSize maxMem : Nat) (data : List Nat)
    (streamed : Nat) : List Nat :=
  if streamed > maxMem then []
  else
    let chunk := data.take chunkSize
    if h : chunk.isEmpty then []
    else chunk ++ streamChunks chunkSize maxMem (data.drop chunkSize)
      (streamed + chunk.length)
termination_by data.length
decreasing_by
  unfold chunk at h
  simp only [List.isEmpty_iff, ← List.length_pos, List.length_take,
    lt_min_iff] at h
  simp only [List.length_drop]
  omega

/-- routes.stream_decompressed_data over a stored compressed artifact:
`gzip.open(...).read(chunk_size)` yields the decompressed bytes (`decomp`)
chunkwise. Returns the concatenation of all yielded chunks. -/
def stream_decompressed_data (decomp : List Nat → List Nat)
    (chunkSize maxMem : Nat) (fileContent : List Nat) : List Nat :=
  streamChunks chunkSize maxMem (decomp fileContent) 0

/-- State seen by routes.get_symbol for one request key: whether the final
artifact file exists (and its bytes), the ledger, and the background download
tasks scheduled so far (the entries handed to them, in order). -/
structure RouteState where
  fileExists : Bool
  fileContent : List Nat
  db : List SymbolEntry
  tasks : List SymbolEntry
deriving Repr, DecidableEq

/-- The response returned by routes.get_symbol. -/
inductive RouteResp
  | badRequest
  | notFound
  | fileGzip (content : List Nat)
  | stream (served : List Nat)
deriving Repr, DecidableEq

/-- routes.get_symbol. Miss path: find-or-create the entry; if it is already
downloading return 404 without scheduling; otherwise mark it downloading,
persist, schedule one background download_symbol task, return 404. Hit path:
find-or-create with found=True (applied only on creation), then serve the
artifact raw (client accepts gzip) or through the decompression stream. -/
def get_symbol (decomp : List Nat → List Nat) (chunkSize maxMem : Nat)
    (pdbname pdbfile guid : String) (isGzipSupported : Bool)
    (st : RouteState) : RouteResp × RouteState :=
  if !(validate_pdb_entry_fields pdbname guid pdbfile) then
    (RouteResp.badRequest, st)
  else if !st.fileExists then
    match create_or_find_pdb_entry st.db guid pdbname pdbfile false with
    | none => (RouteResp.badRequest, st)
    | some (entry, db1) =>
      if entry.downloading then
        (RouteResp.notFound, { st with db := db1 })
      else
        let e1 := { entry with downloading := true }
        (RouteResp.notFound,
          { st with db := modify_pdb_entry db1 e1, tasks := st.tasks ++ [e1] })
  else
    match create_or_find_pdb_entry st.db guid pdbname pdbfile true with
    | none => (RouteResp.badRequest, st)
    | some (_, db1) =>
      if isGzipSupported then
        (RouteResp.fileGzip st.fileContent, { st with db := db1 })
      else
        (RouteResp.stream
            (stream_decompressed_data decomp chunkSize maxMem st.fileContent),
          { st with db := db1 })

/-! ## routes.cleanup_stale_downloads -/

/-- A filesystem path, as the list of components fed to os.path.join. -/
abbrev FPath := List String

/-- The final artifact path `{name}/{identifier}/{filename}.gzip` (relative to
SYMBOL_PATH). -/
def final_path (pdbname guid pdbfile : String) : FPath :=
  [pdbname, guid, pdbfile ++ ".gzip"]

/-- The temporary transfer path `{name}/{identifier}/tmp_{filename}.gzip`. -/
def tmp_path (pdbname guid pdbfile : String) : FPath :=
  [pdbname, guid, "tmp_" ++ pdbfile ++ ".gzip"]

/-- os.remove when the path exists, no-op otherwise. -/
def remove_path (fs : List FPath) (p : FPath) : List FPath :=
  fs.filter (fun q => q ≠ p)

/-- Whether the three fields of a row pass sanitize_path_component (the
cleanup loop catches the ValueError and skips only the file removal). -/
def sanitizable (e : SymbolEntry) : Bool :=
  (sanitize_path_component e.pdbname).isSome
    && (sanitize_path_component e.guid).isSome
    && (sanitize_path_component e.pdbfile).isSome

/-- The for-loop of routes.cleanup_stale_downloads over the snapshot of
still-downloading rows: best-effort removal of the derived temp file, then
clear the downloading flag and persist. -/
def cleanupLoop : List SymbolEntry → List SymbolEntry → List FPath →
    List SymbolEntry × List FPath
  | [], db, fs => (db, fs)
  | d :: rest, db, fs =>
      let fs1 := if sanitizable d then
          remove_path fs (tmp_path d.pdbname d.guid d.pdbfile)
        else fs
      let d1 := { d with downloading := false }
      cleanupLoop rest (modify_pdb_entry db d1) fs1

/-- routes.cleanup_stale_downloads. -/
def cleanup_stale_downloads (db : List SymbolEntry) (fs : List FPath) :
    List SymbolEntry × List FPath :=
  cleanupLoop (find_still_downloading db) db fs

/-! ## Ledger lemmas -/

/-- Strong induction on the length of a list. -/
theorem strong_length_ind {α : Type} {P : List α → Prop}
    (ind : ∀ l : List α, (∀ m : List α, m.length < l.length → P m) → P l)
    (l : List α) : P l := by
  have key : ∀ n : Nat, ∀ l : List α, l.length ≤ n → P l := by
    intro n
    induction n with
    | zero => intro l hl; exact ind l (fun m hm => absurd hm (by omega))
    | succ n ihn => intro l hl; exact ind l (fun m hm => ihn m (by omega))
  exact key l.length l le_rfl

theorem keyMatch_self (e : SymbolEntry) : keyMatch e.guid e.pdbfile e = true := by
  simp [keyMatch]

theorem keyMatch_eq {g f : String} {e : SymbolEntry}
    (h : keyMatch g f e = true) : e.guid = g ∧ e.pdbfile = f := by
  simpa [keyMatch] using h

/-- Writing a row back makes it the row found at its key, provided some row
with that key was present. -/
theorem find_modify_self (e : SymbolEntry) :
    ∀ db : List SymbolEntry,
      (find_pdb_entry db e.guid e.pdbfile).isSome = true →
      find_pdb_entry (modify_pdb_entry db e) e.guid e.pdbfile = some e := by
  intro db
  induction db with
  | nil => simp [find_pdb_entry]
  | cons r rest ih =>
    intro hs
    by_cases hr : keyMatch e.guid e.pdbfile r = true
    · simp only [modify_pdb_entry, List.map_cons, if_pos hr, find_pdb_entry]
      exact List.find?_cons_of_pos _ (keyMatch_self e)
    · simp only [find_pdb_entry, List.find?_cons_of_neg _ hr] at hs
      simp only [modify_pdb_entry, List.map_cons, if_neg hr, find_pdb_entry]
      rw [List.find?_cons_of_neg _ hr]
      simpa [modify_pdb_entry, find_pdb_entry] using ih hs

/-- Appending a fresh row with an unused key makes it the row found at that
key. -/
theorem find_append_fresh (e : SymbolEntry) (g f : String)
    (hk : keyMatch g f e = true) :
    ∀ db : List SymbolEntry, find_pdb_entry db g f = none →
      find_pdb_entry (db ++ [e]) g f = some e := by
  intro db
  induction db with
  | nil => intro _; simp [find_pdb_entry, hk]
  | cons r rest ih =>
    intro hn
    by_cases hr : keyMatch g f r = true
    · rw [find_pdb_entry, List.find?_cons_of_pos _ hr] at hn
      cases hn
    · rw [find_pdb_entry, List.find?_cons_of_neg _ hr] at hn
      rw [List.cons_append, find_pdb_entry, List.find?_cons_of_neg _ hr]
      exact ih hn

/-! ## Transfer-loop lemmas -/

/-- When the upstream delivers exactly the declared number of bytes and no
transport error occurs, the streaming loop writes the whole body, raises
nothing and reaches the declared count. -/
theorem streamLoop_complete (cs mm size : Nat) (hcs : 1 ≤ cs) :
    ∀ body : List Nat, ∀ dl cim : Nat, ∀ ll : Int,
      dl + body.length = size →
      (streamLoop cs mm size false body dl cim ll).written = body ∧
      (streamLoop cs mm size false body dl cim ll).raised = false ∧
      (streamLoop cs mm size false body dl cim ll).downloaded = size := by
  intro body
  induction body using strong_length_ind with
  | ind body ih =>
    intro dl cim ll hsz
    rw [streamLoop]
    by_cases hdl : dl < size
    · have hlen : 1 ≤ body.length := by omega
      have hne : ¬ (body.take (min cs (size - dl))).isEmpty = true := by
        simp only [List.isEmpty_iff, ← List.length_pos, List.length_take]
        omega
      have hdrop : (body.drop (min cs (size - dl))).length <
          body.length := by
        simp only [List.length_drop]
        omega
      have hih : ∀ cim2 : Nat, ∀ ll2 : Int,
          (streamLoop cs mm size false (body.drop (min cs (size - dl)))
              (dl + (body.take (min cs (size - dl))).length) cim2 ll2).written
            = body.drop (min cs (size - dl)) ∧
          (streamLoop cs mm size false (body.drop (min cs (size - dl)))
              (dl + (body.take (min cs (size - dl))).length) cim2 ll2).raised
            = false ∧
          (streamLoop cs mm size false (body.drop (min cs (size - dl)))
              (dl + (body.take (min cs (size - dl))).length) cim2 ll2).downloaded
            = size := by
        intro cim2 ll2
        exact ih _ hdrop _ cim2 ll2
          (by simp only [List.length_take, List.length_drop]; omega)
      simp only [if_pos hdl, dif_neg hne]
      refine ⟨?_, (hih _ _).2.1, (hih _ _).2.2⟩
      rw [(hih _ _).1]
      exact List.take_append_drop _ _
    · have hb : body = [] := List.length_eq_zero.mp (by omega)
      simp [if_neg hdl, hb]
      omega

/-- When the upstream body falls short of the declared size and reading past
it raises, the streaming loop raises. -/
theorem streamLoop_raises (cs mm size : Nat) :
    ∀ body : List Nat, ∀ dl cim : Nat, ∀ ll : Int,
      dl + body.length < size →
      (streamLoop cs mm size true body dl cim ll).raised = true := by
  intro body
  induction body using strong_length_ind with
  | ind body ih =>
    intro dl cim ll hsz
    rw [streamLoop]
    have hdl : dl < size := by omega
    by_cases hne : (body.take (min cs (size - dl))).isEmpty = true
    · simp only [if_pos hdl, dif_pos hne]
    · have hpos : 0 < (body.take (min cs (size - dl))).length := by
        simp only [List.isEmpty_iff, ← List.length_pos] at hne
        omega
      have hdrop : (body.drop (min cs (size - dl))).length <
          body.length := by
        simp only [List.length_take] at hpos
        simp only [List.length_drop]
        omega
      have hih : ∀ cim2 : Nat, ∀ ll2 : Int,
          (streamLoop cs mm size true (body.drop (min cs (size - dl)))
              (dl + (body.take (min cs (size - dl))).length) cim2 ll2).raised
            = true := by
        intro cim2 ll2
        exact ih _ hdrop _ cim2 ll2
          (by simp only [List.length_take, List.length_drop]; omega)
      simp only [if_pos hdl, dif_neg hne]
      exact hih _ _

/-- Every logged percentage lies in a 5%-bucket strictly above the
`last_logged_percent` the loop started with, and the logged buckets are
strictly increasing. -/
theorem streamLoop_log_mono (cs mm size : Nat) (ioe : Bool) :
    ∀ body : List Nat, ∀ dl cim : Nat, ∀ ll : Int,
      (∀ p ∈ (streamLoop cs mm size ioe body dl cim ll).log,
          ll < ((p / 5 : Nat) : Int)) ∧
      ((streamLoop cs mm size ioe body dl cim ll).log).Pairwise
        (fun a b => a / 5 < b / 5) := by
  intro body
  induction body using strong_length_ind with
  | ind body ih =>
    intro dl cim ll
    rw [streamLoop]
    by_cases hdl : dl < size
    · by_cases hne : (body.take (min cs (size - dl))).isEmpty = true
      · simp only [if_pos hdl, dif_pos hne]
        simp
      · have hdrop : (body.drop (min cs (size - dl))).length <
            body.length := by
          simp only [List.isEmpty_iff, ← List.length_pos,
            List.length_take, lt_min_iff] at hne
          simp only [List.length_drop]
          omega
        have hih : ∀ cim2 : Nat, ∀ ll2 : Int,
            (∀ p ∈ (streamLoop cs mm size ioe
                (body.drop (min cs (size - dl)))
                (dl + (body.take (min cs (size - dl))).length)
                cim2 ll2).log, ll2 < ((p / 5 : Nat) : Int)) ∧
            ((streamLoop cs mm size ioe (body.drop (min cs (size - dl)))
                (dl + (body.take (min cs (size - dl))).length)
                cim2 ll2).log).Pairwise (fun a b => a / 5 < b / 5) :=
          fun cim2 ll2 => ih _ hdrop _ cim2 ll2
        simp only [if_pos hdl, dif_neg hne]
        by_cases hlog : ll <
            ((((dl + (body.take (min cs (size - dl))).length) * 100 / size)
              / 5 : Nat) : Int)
        · simp only [if_pos hlog, List.singleton_append]
          constructor
          · intro p hp
            rcases List.mem_cons.mp hp with rfl | hp
            · exact hlog
            · exact lt_trans hlog ((hih _ _).1 p hp)
          · rw [List.pairwise_cons]
            refine ⟨?_, (hih _ _).2⟩
            intro p hp
            have hcast := (hih _ _).1 p hp
            exact_mod_cast hcast
        · simp only [if_neg hlog, List.nil_append]
          exact hih _ _
    · simp [if_neg hdl]

/-- The decompression generator returns the data unchanged whenever the
memory ceiling is never exceeded mid-stream. -/
theorem streamChunks_of_le (cs mm : Nat) (hcs : 1 ≤ cs) :
    ∀ data : List Nat, ∀ streamed : Nat,
      streamed + data.length ≤ mm →
      streamChunks cs mm data streamed = data := by
  intro data
  induction data using strong_length_ind with
  | ind data ih =>
    intro streamed hmem
    rw [streamChunks]
    have hnogt : ¬ streamed > mm := by omega
    by_cases hne : (data.take cs).isEmpty = true
    · have h0 := congrArg List.length (List.isEmpty_iff.mp hne)
      simp only [List.length_take, List.length_nil] at h0
      have hd : data = [] := List.length_eq_zero.mp (by omega)
      simp [if_neg hnogt, dif_pos hne, hd]
    · have hdrop : (data.drop cs).length < data.length := by
        simp only [List.isEmpty_iff, ← List.length_pos,
          List.length_take, lt_min_iff] at hne
        simp only [List.length_drop]
        omega
      simp only [if_neg hnogt, dif_neg hne]
      rw [ih (data.drop cs) hdrop (streamed + (data.take cs).length)
        (by simp only [List.length_drop, List.length_take]
            omega)]
      exact List.take_append_drop _ _

/-! ## Transfer-engine lemmas -/

theorem isNone_eq_false_of_isSome {α : Type} {o : Option α}
    (h : o.isSome = true) : o.isNone = false := by
  cases o <;> simp_all

/-- The sanitize gate of download_and_save_symbol is passed by an entry whose
fields all sanitize. -/
theorem sanitize_gate_false {e : SymbolEntry} (hsan : sanitizable e = true) :
    ((sanitize_path_component e.pdbname).isNone
      || (sanitize_path_component e.guid).isNone
      || (sanitize_path_component e.pdbfile).isNone) = false := by
  simp only [sanitizable, Bool.and_eq_true] at hsan
  rw [isNone_eq_false_of_isSome hsan.1.1, isNone_eq_false_of_isSome hsan.1.2,
    isNone_eq_false_of_isSome hsan.2]
  rfl

/-- A complete transfer (declared size delivered, no transport error)
publishes exactly the transferred bytes — verbatim when the upstream body was
gzip-encoded, compressed otherwise — removes the temp file, raises nothing,
and leaves the entry and ledger untouched. -/
theorem save_complete (comp : List Nat → List Nat) (cs mm : Nat)
    (e : SymbolEntry) (r : HttpResp) (db : List SymbolEntry) (fs : FS)
    (hcs : 1 ≤ cs) (hsan : sanitizable e = true)
    (hsize : get_pdb_size r = some r.body.length) (hio : r.ioError = false) :
    download_and_save_symbol comp cs mm e r db fs =
      { entry := e, db := db,
        fs := { tmp := none,
                final := some (if r.gzipEncoded then r.body else comp r.body) },
        raised := false,
        log := (streamLoop cs mm r.body.length false r.body 0 0 (-1)).log } := by
  have hstream := streamLoop_complete cs mm r.body.length hcs r.body 0 0 (-1)
    (by omega)
  simp only [download_and_save_symbol, sanitize_gate_false hsan,
    Bool.false_eq_true, if_false, hsize, hio, hstream.2.1, hstream.1]

/-- A 200 response without either size header: the entry is finalized
not-downloading and persisted, the temp file is removed, nothing is
published, and the function returns normally (no exception). -/
theorem save_nosize (comp : List Nat → List Nat) (cs mm : Nat)
    (e : SymbolEntry) (r : HttpResp) (db : List SymbolEntry) (fs : FS)
    (hsan : sanitizable e = true) (hnone : get_pdb_size r = none) :
    download_and_save_symbol comp cs mm e r db fs =
      { entry := { e with downloading := false },
        db := modify_pdb_entry db { e with downloading := false },
        fs := { tmp := none, final := fs.final },
        raised := false, log := [] } := by
  simp only [download_and_save_symbol, sanitize_gate_false hsan,
    Bool.false_eq_true, if_false, hnone]

/-- When the transfer raises, nothing is published: the final artifact slot
is exactly what it was before. -/
theorem save_raised_final (comp : List Nat → List Nat) (cs mm : Nat)
    (e : SymbolEntry) (r : HttpResp) (db : List SymbolEntry) (fs : FS)
    (hr : (download_and_save_symbol comp cs mm e r db fs).raised = true) :
    (download_and_save_symbol comp cs mm e r db fs).fs.final = fs.final := by
  by_cases hg : ((sanitize_path_component e.pdbname).isNone
      || (sanitize_path_component e.guid).isNone
      || (sanitize_path_component e.pdbfile).isNone) = true
  · simp only [download_and_save_symbol, hg, if_true]
  · simp only [Bool.not_eq_true] at hg
    simp only [download_and_save_symbol, hg, Bool.false_eq_true, if_false]
      at hr ⊢
    cases hsz : get_pdb_size r with
    | none => simp [hsz]
    | some size =>
      simp only [hsz] at hr ⊢
      by_cases hrr : (streamLoop cs mm size r.ioError r.body 0 0 (-1)).raised
        = true
      · simp [hrr]
      · simp only [Bool.not_eq_true] at hrr
        simp [hrr] at hr

/-- The three result shapes of download_and_save_symbol: propagate the
sanitize ValueError untouched; finalize-and-clean (missing size header or
mid-stream exception); publish. -/
theorem save_cases (comp : List Nat → List Nat) (cs mm : Nat)
    (e : SymbolEntry) (r : HttpResp) (db : List SymbolEntry) (fs : FS) :
    download_and_save_symbol comp cs mm e r db fs =
      { entry := e, db := db, fs := fs, raised := true, log := [] } ∨
    (∃ b lg, download_and_save_symbol comp cs mm e r db fs =
      { entry := { e with downloading := false },
        db := modify_pdb_entry db { e with downloading := false },
        fs := { tmp := none, final := fs.final },
        raised := b, log := lg }) ∨
    (∃ content lg, download_and_save_symbol comp cs mm e r db fs =
      { entry := e, db := db,
        fs := { tmp := none, final := some content },
        raised := false, log := lg }) := by
  by_cases hg : ((sanitize_path_component e.pdbname).isNone
      || (sanitize_path_component e.guid).isNone
      || (sanitize_path_component e.pdbfile).isNone) = true
  · left
    simp only [download_and_save_symbol, hg, if_true]
  · simp only [Bool.not_eq_true] at hg
    right
    cases hsz : get_pdb_size r with
    | none =>
      left
      refine ⟨false, [], ?_⟩
      simp only [download_and_save_symbol, hg, Bool.false_eq_true, if_false,
        hsz]
    | some size =>
      by_cases hrr : (streamLoop cs mm size r.ioError r.body 0 0 (-1)).raised
        = true
      · left
        refine ⟨true, (streamLoop cs mm size r.ioError r.body 0 0 (-1)).log,
          ?_⟩
        simp only [download_and_save_symbol, hg, Bool.false_eq_true,
          if_false, hsz, hrr, if_true]
      · right
        simp only [Bool.not_eq_true] at hrr
        refine ⟨(if r.gzipEncoded then
            (streamLoop cs mm size r.ioError r.body 0 0 (-1)).written
          else comp (streamLoop cs mm size r.ioError r.body 0 0 (-1)).written),
          (streamLoop cs mm size r.ioError r.body 0 0 (-1)).log, ?_⟩
        simp only [download_and_save_symbol, hg, Bool.false_eq_true,
          if_false, hsz, hrr]

/-- download_and_save_symbol never changes the entry's key fields or its
found flag, and keeps its key present in the persisted ledger. -/
theorem save_key (comp : List Nat → List Nat) (cs mm : Nat)
    (e : SymbolEntry) (r : HttpResp) (db : List SymbolEntry) (fs : FS)
    (hs : (find_pdb_entry db e.guid e.pdbfile).isSome = true) :
    (download_and_save_symbol comp cs mm e r db fs).entry.guid = e.guid ∧
    (download_and_save_symbol comp cs mm e r db fs).entry.pdbfile
      = e.pdbfile ∧
    (download_and_save_symbol comp cs mm e r db fs).entry.found = e.found ∧
    (find_pdb_entry (download_and_save_symbol comp cs mm e r db fs).db
      e.guid e.pdbfile).isSome = true := by
  rcases save_cases comp cs mm e r db fs with hv | ⟨b, lg, hv⟩ |
    ⟨content, lg, hv⟩ <;> rw [hv]
  · exact ⟨rfl, rfl, rfl, hs⟩
  · refine ⟨rfl, rfl, rfl, ?_⟩
    exact (congrArg Option.isSome
      (find_modify_self { e with downloading := false } db hs)).trans rfl
  · exact ⟨rfl, rfl, rfl, hs⟩

/-! ## Orchestrator lemmas -/

/-- A candidate that fails at the HTTP level: transport error or non-200. -/
def failCand : Candidate → Bool
  | Candidate.netError => true
  | Candidate.resp r => r.status != 200

/-- When every candidate fails at the HTTP level, the loop reaches the
finalization point untouched: found cleared, downloading cleared, one
persist, filesystem untouched. -/
theorem downloadLoop_all_fail (comp : List Nat → List Nat) (cs mm : Nat) :
    ∀ cands : List Candidate, (∀ c ∈ cands, failCand c = true) →
    ∀ e db fs reqs,
      downloadLoop comp cs mm cands e db fs reqs =
        { entry := { e with downloading := false, found := false },
          db := modify_pdb_entry db { e with downloading := false,
                                             found := false },
          fs := fs, requests := reqs + cands.length } := by
  intro cands
  induction cands with
  | nil => intro _ e db fs reqs; rfl
  | cons c rest ih =>
    intro hall e db fs reqs
    cases c with
    | netError =>
      simp only [downloadLoop]
      rw [ih (fun c hc => hall c (List.mem_cons_of_mem _ hc)) e db fs
        (reqs + 1)]
      simp only [List.length_cons]
      congr 1
      omega
    | resp r =>
      have hr : (r.status != 200) = true := hall _ (List.mem_cons_self _ _)
      have hne : ¬ (r.status = 200) := by simpa using hr
      simp only [downloadLoop, if_neg hne]
      rw [ih (fun c hc => hall c (List.mem_cons_of_mem _ hc)) e db fs
        (reqs + 1)]
      simp only [List.length_cons]
      congr 1
      omega

/-- On every path through the candidate loop the entry keeps its key, ends
not-downloading, and the persisted ledger holds exactly the final entry at
that key. -/
theorem downloadLoop_persist (comp : List Nat → List Nat) (cs mm : Nat) :
    ∀ cands : List Candidate, ∀ e db fs reqs,
      (find_pdb_entry db e.guid e.pdbfile).isSome = true →
      (downloadLoop comp cs mm cands e db fs reqs).entry.guid = e.guid ∧
      (downloadLoop comp cs mm cands e db fs reqs).entry.pdbfile
        = e.pdbfile ∧
      (downloadLoop comp cs mm cands e db fs reqs).entry.downloading
        = false ∧
      find_pdb_entry (downloadLoop comp cs mm cands e db fs reqs).db
        e.guid e.pdbfile
        = some (downloadLoop comp cs mm cands e db fs reqs).entry := by
  intro cands
  induction cands with
  | nil =>
    intro e db fs reqs hs
    refine ⟨rfl, rfl, rfl, ?_⟩
    simp only [downloadLoop, finalize_download]
    exact find_modify_self _ db hs
  | cons c rest ih =>
    intro e db fs reqs hs
    cases c with
    | netError => exact ih e db fs (reqs + 1) hs
    | resp r =>
      by_cases h200 : r.status = 200
      · have hsk := save_key comp cs mm { e with found := true } r db fs hs
        have hg1 : (download_and_save_symbol comp cs mm
            { e with found := true } r db fs).entry.guid = e.guid := hsk.1
        have hg2 : (download_and_save_symbol comp cs mm
            { e with found := true } r db fs).entry.pdbfile
            = e.pdbfile := hsk.2.1
        have hg4 : (find_pdb_entry (download_and_save_symbol comp cs mm
            { e with found := true } r db fs).db e.guid e.pdbfile).isSome
            = true := hsk.2.2.2
        by_cases hrr : (download_and_save_symbol comp cs mm
            { e with found := true } r db fs).raised = true
        · simp only [downloadLoop, if_pos h200, if_pos hrr]
          have hih := ih (download_and_save_symbol comp cs mm
              { e with found := true } r db fs).entry
            (download_and_save_symbol comp cs mm
              { e with found := true } r db fs).db
            (download_and_save_symbol comp cs mm
              { e with found := true } r db fs).fs
            (reqs + 1) (by rw [hg1, hg2]; exact hg4)
          rw [hg1, hg2] at hih
          exact hih
        · simp only [downloadLoop, if_pos h200, if_neg hrr,
            finalize_download]
          have hga : ({ (download_and_save_symbol comp cs mm
              { e with found := true } r db fs).entry with
              downloading := false } : SymbolEntry).guid = e.guid := hg1
          have hgb : ({ (download_and_save_symbol comp cs mm
              { e with found := true } r db fs).entry with
              downloading := false } : SymbolEntry).pdbfile
              = e.pdbfile := hg2
          refine ⟨hga, hgb, trivial, ?_⟩
          have hsome2 : (find_pdb_entry (download_and_save_symbol comp cs mm
              { e with found := true } r db fs).db
              ({ (download_and_save_symbol comp cs mm
                { e with found := true } r db fs).entry with
                downloading := false } : SymbolEntry).guid
              ({ (download_and_save_symbol comp cs mm
                { e with found := true } r db fs).entry with
                downloading := false } : SymbolEntry).pdbfile).isSome
              = true := by
            rw [hga, hgb]
            exact hg4
          have hfm := find_modify_self _ _ hsome2
          rw [hga, hgb] at hfm
          exact hfm
      · simp only [downloadLoop, if_neg h200]
        exact ih e db fs (reqs + 1) hs

/-! ## Crash-recovery lemmas -/

/-- Any row still downloading after the cleanup loop was already in the
ledger and matches no processed entry's key. -/
theorem cleanupLoop_not_downloading :
    ∀ ds db fs, ∀ r ∈ (cleanupLoop ds db fs).1,
      r.downloading = true →
      r ∈ db ∧ ∀ d ∈ ds, keyMatch d.guid d.pdbfile r = false := by
  intro ds
  induction ds with
  | nil =>
    intro db fs r hr hdl
    exact ⟨hr, by simp⟩
  | cons d rest ih =>
    intro db fs r hr hdl
    have hr2 : r ∈ (cleanupLoop rest
        (modify_pdb_entry db { d with downloading := false })
        (if sanitizable d then
          remove_path fs (tmp_path d.pdbname d.guid d.pdbfile) else fs)).1 := hr
    obtain ⟨hmem, hkeys⟩ := ih _ _ r hr2 hdl
    obtain ⟨row, hrow, heq⟩ := List.mem_map.mp hmem
    by_cases hk : keyMatch ({ d with downloading := false } : SymbolEntry).guid
        ({ d with downloading := false } : SymbolEntry).pdbfile row = true
    · rw [if_pos hk] at heq
      rw [← heq] at hdl
      cases hdl
    · rw [if_neg hk] at heq
      subst heq
      refine ⟨hrow, ?_⟩
      intro d2 hd2
      rcases List.mem_cons.mp hd2 with rfl | hd2
      · simpa using hk
      · exact hkeys d2 hd2

/-- The cleanup loop never adds files. -/
theorem cleanupLoop_fs_mono :
    ∀ ds db fs, ∀ p : FPath, p ∈ (cleanupLoop ds db fs).2 → p ∈ fs := by
  intro ds
  induction ds with
  | nil => intro db fs p hp; exact hp
  | cons d rest ih =>
    intro db fs p hp
    have := ih (modify_pdb_entry db { d with downloading := false }) _ p hp
    by_cases hsan : sanitizable d = true
    · rw [if_pos hsan] at this
      exact List.mem_of_mem_filter this
    · rwa [if_neg hsan] at this

/-- The derived temp path of every processed entry with sanitizable fields is
absent afterwards. -/
theorem cleanupLoop_removed :
    ∀ ds db fs, ∀ d ∈ ds, sanitizable d = true →
      tmp_path d.pdbname d.guid d.pdbfile ∉ (cleanupLoop ds db fs).2 := by
  intro ds
  induction ds with
  | nil => intro db fs d hd; cases hd
  | cons d0 rest ih =>
    intro db fs d hd hsan
    rcases List.mem_cons.mp hd with rfl | hd
    · intro hmem
      have hsub := cleanupLoop_fs_mono rest
        (modify_pdb_entry db { d with downloading := false })
        (if sanitizable d then
          remove_path fs (tmp_path d.pdbname d.guid d.pdbfile) else fs)
        _ hmem
      rw [if_pos hsan] at hsub
      have := List.of_mem_filter hsub
      simp at this
    · exact ih _ _ d hd hsan

/-- Any file whose path differs from every processed entry's derived temp
path survives the cleanup loop untouched. -/
theorem cleanupLoop_frame :
    ∀ ds db fs, ∀ p : FPath, p ∈ fs →
      (∀ d ∈ ds, p ≠ tmp_path d.pdbname d.guid d.pdbfile) →
      p ∈ (cleanupLoop ds db fs).2 := by
  intro ds
  induction ds with
  | nil => intro db fs p hp _; exact hp
  | cons d rest ih =>
    intro db fs p hp hne
    apply ih
    · by_cases hsan : sanitizable d = true
      · rw [if_pos hsan]
        exact List.mem_filter.mpr ⟨hp,
          by simpa using hne d (List.mem_cons_self _ _)⟩
      · rwa [if_neg hsan]
    · intro d2 hd2
      exact hne d2 (List.mem_cons_of_mem _ hd2)

/-! ## Claims -/

theorem sanitizable_of_validate {e : SymbolEntry}
    (hv : validate_pdb_entry_fields e.pdbname e.guid e.pdbfile = true) :
    sanitizable e = true := by
  simp only [validate_pdb_entry_fields, Bool.and_eq_true] at hv
  simp only [sanitizable, Bool.and_eq_true]
  tauto

/-- Claim C9 (confirmed): sanitize_path_component never transforms an
accepted component — it returns its argument unchanged, hence it is
idempotent on accepted inputs — and the single-character component "."
passes every check and is returned as-is. -/
theorem claim_C9 :
    (∀ s t : String, sanitize_path_component s = some t → t = s) ∧
    (∀ s t : String, sanitize_path_component s = some t →
      sanitize_path_component t = some t) ∧
    sanitize_path_component "." = some "." := by
  have hid : ∀ s t : String, sanitize_path_component s = some t → t = s := by
    intro s t h
    unfold sanitize_path_component at h
    split_ifs at h
    exact (Option.some.inj h).symm
  refine ⟨hid, ?_, by decide⟩
  intro s t h
  have ht := hid s t h
  subst ht
  exact h

/-- Witness for C9 at the concrete component "chrome.dll.pdb". -/
theorem claim_C9_witness :
    ("chrome.dll.pdb" : String) = "chrome.dll.pdb" ∧
    sanitize_path_component "chrome.dll.pdb" = some "chrome.dll.pdb" :=
  ⟨claim_C9.1 "chrome.dll.pdb" "chrome.dll.pdb" (by decide),
   claim_C9.2.1 "chrome.dll.pdb" "chrome.dll.pdb" (by decide)⟩

/-- Claim C7 (corrected): when the entry handed to download_symbol fails
field validation, the function clears the downloading flag, persists the
entry, touches no file, and issues no network request — but it leaves the
found flag unchanged rather than forcing it to false. -/
theorem claim_C7 (comp : List Nat → List Nat) (cs mm : Nat)
    (cands : List Candidate) (e : SymbolEntry) (db : List SymbolEntry)
    (fs : FS)
    (hbad : validate_pdb_entry_fields e.pdbname e.guid e.pdbfile = false) :
    (download_symbol comp cs mm cands e db fs).requests = 0 ∧
    (download_symbol comp cs mm cands e db fs).entry
      = { e with downloading := false } ∧
    (download_symbol comp cs mm cands e db fs).db
      = modify_pdb_entry db { e with downloading := false } ∧
    (download_symbol comp cs mm cands e db fs).fs = fs := by
  simp only [download_symbol, hbad, Bool.false_eq_true, if_false]
  refine ⟨?_, ?_, ?_, ?_⟩ <;> trivial

/-- Counterexample to C7 as stated: an entry with the malformed pdbname ".."
arriving with found=true keeps found=true after the rejection — the claim's
"finalizes not-found" is false — while no request is issued. -/
theorem claim_C7_counterexample :
    (download_symbol (fun l => l) 4 100
      [Candidate.resp ⟨200, some 1, none, true, [9], false⟩]
      ⟨"..", "g", "f", true, true⟩ [⟨"..", "g", "f", true, true⟩]
      ⟨none, none⟩).entry.found = true ∧
    (download_symbol (fun l => l) 4 100
      [Candidate.resp ⟨200, some 1, none, true, [9], false⟩]
      ⟨"..", "g", "f", true, true⟩ [⟨"..", "g", "f", true, true⟩]
      ⟨none, none⟩).requests = 0 := by
  constructor <;> decide

/-- Witness for C7 at a concrete entry with an empty pdbname. -/
theorem claim_C7_witness :
    (download_symbol (fun l => l) 4 100 [Candidate.netError]
      ⟨"", "g", "f", true, false⟩ [] ⟨none, none⟩).requests = 0 ∧
    (download_symbol (fun l => l) 4 100 [Candidate.netError]
      ⟨"", "g", "f", true, false⟩ [] ⟨none, none⟩).entry
      = ⟨"", "g", "f", false, false⟩ ∧
    (download_symbol (fun l => l) 4 100 [Candidate.netError]
      ⟨"", "g", "f", true, false⟩ [] ⟨none, none⟩).db
      = modify_pdb_entry [] ⟨"", "g", "f", false, false⟩ ∧
    (download_symbol (fun l => l) 4 100 [Candidate.netError]
      ⟨"", "g", "f", true, false⟩ [] ⟨none, none⟩).fs = ⟨none, none⟩ :=
  claim_C7 (fun l => l) 4 100 [Candidate.netError]
    ⟨"", "g", "f", true, false⟩ [] ⟨none, none⟩ (by decide)

/-- Claim C2 (corrected): a 200 response carrying neither size header makes
the transfer abort with no temporary file, no stored artifact, and the entry
finalized not-downloading — but the orchestrator treats this candidate as
successful: it stops iterating (exactly one request) and the entry ends
found=true. -/
theorem claim_C2 (comp : List Nat → List Nat) (cs mm : Nat) (r : HttpResp)
    (rest : List Candidate) (e : SymbolEntry) (db : List SymbolEntry)
    (fs : FS)
    (hv : validate_pdb_entry_fields e.pdbname e.guid e.pdbfile = true)
    (h200 : r.status = 200) (hcl : r.contentLength = none)
    (hgl : r.googLength = none) :
    (download_symbol comp cs mm (Candidate.resp r :: rest) e db fs).requests
      = 1 ∧
    (download_symbol comp cs mm (Candidate.resp r :: rest) e db fs).entry
      = { e with downloading := false, found := true } ∧
    (download_symbol comp cs mm (Candidate.resp r :: rest) e db fs).fs.tmp
      = none ∧
    (download_symbol comp cs mm (Candidate.resp r :: rest) e db fs).fs.final
      = fs.final := by
  have hsan := sanitizable_of_validate hv
  have hsz : get_pdb_size r = none := by
    simp [get_pdb_size, hcl, hgl]
  simp only [download_symbol, hv, if_true, downloadLoop, if_pos h200]
  rw [save_nosize comp cs mm { e with found := true } r db fs hsan hsz]
  simp only [Bool.false_eq_true, if_false, finalize_download]
  refine ⟨?_, ?_, ?_, ?_⟩ <;> trivial

/-- Counterexample to C2 as stated: with a second, perfectly good candidate
configured, the orchestrator issues exactly one request (it does not proceed
to the next candidate) and the entry ends found=true although nothing was
stored. -/
theorem claim_C2_counterexample :
    (download_symbol (fun l => l) 4 100
      [Candidate.resp ⟨200, none, none, false, [1, 2, 3], false⟩,
       Candidate.resp ⟨200, some 1, none, true, [9], false⟩]
      ⟨"n", "g", "f", true, false⟩ [⟨"n", "g", "f", true, false⟩]
      ⟨none, none⟩).requests = 1 ∧
    (download_symbol (fun l => l) 4 100
      [Candidate.resp ⟨200, none, none, false, [1, 2, 3], false⟩,
       Candidate.resp ⟨200, some 1, none, true, [9], false⟩]
      ⟨"n", "g", "f", true, false⟩ [⟨"n", "g", "f", true, false⟩]
      ⟨none, none⟩).entry.found = true ∧
    (download_symbol (fun l => l) 4 100
      [Candidate.resp ⟨200, none, none, false, [1, 2, 3], false⟩,
       Candidate.resp ⟨200, some 1, none, true, [9], false⟩]
      ⟨"n", "g", "f", true, false⟩ [⟨"n", "g", "f", true, false⟩]
      ⟨none, none⟩).fs.final = none := by
  refine ⟨?_, ?_, ?_⟩ <;> decide

/-- Witness for C2 at a concrete headerless 200 response. -/
theorem claim_C2_witness :
    (download_symbol (fun l => l) 4 100
      [Candidate.resp ⟨200, none, none, false, [1, 2], false⟩,
       Candidate.netError]
      ⟨"n", "g", "f", true, false⟩ [⟨"n", "g", "f", true, false⟩]
      ⟨none, some [3]⟩).requests = 1 ∧
    (download_symbol (fun l => l) 4 100
      [Candidate.resp ⟨200, none, none, false, [1, 2], false⟩,
       Candidate.netError]
      ⟨"n", "g", "f", true, false⟩ [⟨"n", "g", "f", true, false⟩]
      ⟨none, some [3]⟩).entry = ⟨"n", "g", "f", false, true⟩ ∧
    (download_symbol (fun l => l) 4 100
      [Candidate.resp ⟨200, none, none, false, [1, 2], false⟩,
       Candidate.netError]
      ⟨"n", "g", "f", true, false⟩ [⟨"n", "g", "f", true, false⟩]
      ⟨none, some [3]⟩).fs.tmp = none ∧
    (download_symbol (fun l => l) 4 100
      [Candidate.resp ⟨200, none, none, false, [1, 2], false⟩,
       Candidate.netError]
      ⟨"n", "g", "f", true, false⟩ [⟨"n", "g", "f", true, false⟩]
      ⟨none, some [3]⟩).fs.final = some [3] :=
  claim_C2 (fun l => l) 4 100 ⟨200, none, none, false, [1, 2], false⟩
    [Candidate.netError] ⟨"n", "g", "f", true, false⟩
    [⟨"n", "g", "f", true, false⟩] ⟨none, some [3]⟩
    (by decide) rfl rfl rfl

/-- Claim C1 (corrected): the temp file is renamed into the final path only
when the streaming loop returns without an exception; when the upstream
delivers the full declared byte count the published artifact holds exactly
the transferred bytes and the temp file is gone; and a raising transfer
never publishes. (As originally stated the claim is false: an upstream that
ends the stream early without raising still gets its short file renamed into
the final path — see the counterexample.) -/
theorem claim_C1 (comp : List Nat → List Nat) (cs mm : Nat) (e : SymbolEntry)
    (r : HttpResp) (db : List SymbolEntry) (fs : FS)
    (hcs : 1 ≤ cs) (hsan : sanitizable e = true)
    (hsize : get_pdb_size r = some r.body.length) (hio : r.ioError = false) :
    ((download_and_save_symbol comp cs mm e r db fs).raised = false ∧
     (download_and_save_symbol comp cs mm e r db fs).fs.final =
       some (if r.gzipEncoded then r.body else comp r.body) ∧
     (download_and_save_symbol comp cs mm e r db fs).fs.tmp = none) ∧
    (∀ r2 db2 fs2,
      (download_and_save_symbol comp cs mm e r2 db2 fs2).raised = true →
      (download_and_save_symbol comp cs mm e r2 db2 fs2).fs.final
        = fs2.final) := by
  constructor
  · rw [save_complete comp cs mm e r db fs hcs hsan hsize hio]
    exact ⟨rfl, rfl, rfl⟩
  · intro r2 db2 fs2 hr
    exact save_raised_final comp cs mm e r2 db2 fs2 hr

/-- Counterexample to C1 as stated: the upstream declares 2 bytes but
delivers only 1 and closes the stream; no exception is raised and the
truncated file is renamed into the final artifact path. -/
theorem claim_C1_counterexample :
    get_pdb_size ⟨200, some 2, none, true, [7], false⟩ = some 2 ∧
    (download_and_save_symbol (fun l => l) 4 100
      ⟨"n", "g", "f", true, false⟩ ⟨200, some 2, none, true, [7], false⟩
      [] ⟨none, none⟩).raised = false ∧
    (download_and_save_symbol (fun l => l) 4 100
      ⟨"n", "g", "f", true, false⟩ ⟨200, some 2, none, true, [7], false⟩
      [] ⟨none, none⟩).fs.final = some [7] ∧
    ([7] : List Nat).length < 2 := by
  refine ⟨by decide, ?_, ?_, by decide⟩ <;>
    simp [download_and_save_symbol, sanitize_path_component, hasDoubleDot,
      pyFullMatch, allowedChar, get_pdb_size, streamLoop]
  all_goals decide

/-- Witness for C1 at a concrete complete transfer of two raw bytes. -/
theorem claim_C1_witness :
    (download_and_save_symbol (fun l => l) 2 10
      ⟨"n", "g", "f", true, false⟩ ⟨200, some 2, none, false, [5, 6], false⟩
      [] ⟨none, none⟩).raised = false ∧
    (download_and_save_symbol (fun l => l) 2 10
      ⟨"n", "g", "f", true, false⟩ ⟨200, some 2, none, false, [5, 6], false⟩
      [] ⟨none, none⟩).fs.final = some [5, 6] ∧
    (download_and_save_symbol (fun l => l) 2 10
      ⟨"n", "g", "f", true, false⟩ ⟨200, some 2, none, false, [5, 6], false⟩
      [] ⟨none, none⟩).fs.tmp = none :=
  (claim_C1 (fun l => l) 2 10 ⟨"n", "g", "f", true, false⟩
    ⟨200, some 2, none, false, [5, 6], false⟩ [] ⟨none, none⟩
    (by decide) (by decide) (by decide) rfl).1

/-- Claim C4 (confirmed): when every candidate yields a transport error or a
non-200 status the orchestrator finalizes found=false; the same holds when a
200 transfer raises mid-stream and the remaining candidates all fail; and on
every termination path the entry ends downloading=false with the final entry
persisted at its ledger key. -/
theorem claim_C4 (comp : List Nat → List Nat) (cs mm : Nat)
    (cands : List Candidate) (e : SymbolEntry) (db : List SymbolEntry)
    (fs : FS)
    (hv : validate_pdb_entry_fields e.pdbname e.guid e.pdbfile = true)
    (hs : (find_pdb_entry db e.guid e.pdbfile).isSome = true) :
    ((∀ c ∈ cands, failCand c = true) →
      (download_symbol comp cs mm cands e db fs).entry.found = false ∧
      (download_symbol comp cs mm cands e db fs).fs = fs) ∧
    (∀ (r : HttpResp) (rest : List Candidate) (sz : Nat), 1 ≤ cs →
      r.status = 200 → get_pdb_size r = some sz → r.body.length < sz →
      r.ioError = true → (∀ c ∈ rest, failCand c = true) →
      (download_symbol comp cs mm (Candidate.resp r :: rest) e db
        fs).entry.found = false) ∧
    ((download_symbol comp cs mm cands e db fs).entry.downloading = false ∧
      find_pdb_entry (download_symbol comp cs mm cands e db fs).db
        e.guid e.pdbfile
        = some (download_symbol comp cs mm cands e db fs).entry) := by
  refine ⟨?_, ?_, ?_⟩
  · intro hall
    simp only [download_symbol, hv, if_true]
    rw [downloadLoop_all_fail comp cs mm cands hall e db fs 0]
    exact ⟨rfl, rfl⟩
  · intro r rest sz hcs h200 hsz hlen hio hall
    have hsan := sanitizable_of_validate hv
    have hb := streamLoop_raises cs mm sz r.body 0 0 (-1) (by omega)
    have hraised : (download_and_save_symbol comp cs mm
        { e with found := true } r db fs).raised = true := by
      simp only [download_and_save_symbol, sanitize_gate_false hsan,
        Bool.false_eq_true, if_false, hsz, hio, hb, if_true]
    simp only [download_symbol, hv, if_true, downloadLoop, if_pos h200,
      if_pos hraised]
    rw [downloadLoop_all_fail comp cs mm rest hall _ _ _ _]
  · simp only [download_symbol, hv, if_true]
    exact ⟨(downloadLoop_persist comp cs mm cands e db fs 0 hs).2.2.1,
      (downloadLoop_persist comp cs mm cands e db fs 0 hs).2.2.2⟩

/-- Witness for C4: a transport error followed by a 404, and separately a
200 that raises mid-stream followed by a transport error. -/
theorem claim_C4_witness :
    ((download_symbol (fun l => l) 2 10
        [Candidate.netError,
         Candidate.resp ⟨404, none, none, false, [], false⟩]
        ⟨"n", "g", "f", true, true⟩ [⟨"n", "g", "f", true, true⟩]
        ⟨none, none⟩).entry.found = false ∧
      (download_symbol (fun l => l) 2 10
        [Candidate.netError,
         Candidate.resp ⟨404, none, none, false, [], false⟩]
        ⟨"n", "g", "f", true, true⟩ [⟨"n", "g", "f", true, true⟩]
        ⟨none, none⟩).fs = ⟨none, none⟩) ∧
    (download_symbol (fun l => l) 2 10
      [Candidate.resp ⟨200, some 5, none, false, [1], true⟩,
       Candidate.netError]
      ⟨"n", "g", "f", true, true⟩ [⟨"n", "g", "f", true, true⟩]
      ⟨none, none⟩).entry.found = false ∧
    (download_symbol (fun l => l) 2 10
      [Candidate.netError,
       Candidate.resp ⟨404, none, none, false, [], false⟩]
      ⟨"n", "g", "f", true, true⟩ [⟨"n", "g", "f", true, true⟩]
      ⟨none, none⟩).entry.downloading = false ∧
    find_pdb_entry (download_symbol (fun l => l) 2 10
      [Candidate.netError,
       Candidate.resp ⟨404, none, none, false, [], false⟩]
      ⟨"n", "g", "f", true, true⟩ [⟨"n", "g", "f", true, true⟩]
      ⟨none, none⟩).db "g" "f"
      = some (download_symbol (fun l => l) 2 10
      [Candidate.netError,
       Candidate.resp ⟨404, none, none, false, [], false⟩]
      ⟨"n", "g", "f", true, true⟩ [⟨"n", "g", "f", true, true⟩]
      ⟨none, none⟩).entry :=
  ⟨(claim_C4 (fun l => l) 2 10
      [Candidate.netError, Candidate.resp ⟨404, none, none, false, [], false⟩]
      ⟨"n", "g", "f", true, true⟩ [⟨"n", "g", "f", true, true⟩] ⟨none, none⟩
      (by decide) (by decide)).1 (by decide),
   (claim_C4 (fun l => l) 2 10 [Candidate.netError]
      ⟨"n", "g", "f", true, true⟩ [⟨"n", "g", "f", true, true⟩] ⟨none, none⟩
      (by decide) (by decide)).2.1 ⟨200, some 5, none, false, [1], true⟩
      [Candidate.netError] 5 (by decide) rfl rfl (by decide) rfl (by decide),
   (claim_C4 (fun l => l) 2 10
      [Candidate.netError, Candidate.resp ⟨404, none, none, false, [], false⟩]
      ⟨"n", "g", "f", true, true⟩ [⟨"n", "g", "f", true, true⟩] ⟨none, none⟩
      (by decide) (by decide)).2.2.1,
   (claim_C4 (fun l => l) 2 10
      [Candidate.netError, Candidate.resp ⟨404, none, none, false, [], false⟩]
      ⟨"n", "g", "f", true, true⟩ [⟨"n", "g", "f", true, true⟩] ⟨none, none⟩
      (by decide) (by decide)).2.2.2⟩

/-- The original upstream payload: the logical content behind the wire
bytes — for a gzip-encoded body the decompressed wire bytes, otherwise the
wire bytes themselves. -/
def upstream_payload (decomp : List Nat → List Nat) (r : HttpResp) :
    List Nat :=
  if r.gzipEncoded then decomp r.body else r.body

/-- Claim C5 (corrected): after a complete successful fetch, the bytes served
through the decompressed stream equal the original upstream payload — in
both the pre-compressed and the raw upstream case — provided the payload
fits within the configured memory ceiling. (Payloads exceeding the ceiling
are truncated by the stream's safety backstop, so the claim as stated is
false for them — see the counterexample.) -/
theorem claim_C5 (comp decomp : List Nat → List Nat) (cs mm : Nat)
    (e : SymbolEntry) (r : HttpResp) (db : List SymbolEntry) (fs : FS)
    (hcs : 1 ≤ cs)
    (hrt : ∀ x, decomp (comp x) = x)
    (hv : validate_pdb_entry_fields e.pdbname e.guid e.pdbfile = true)
    (h200 : r.status = 200)
    (hsize : get_pdb_size r = some r.body.length)
    (hio : r.ioError = false)
    (hmem : (upstream_payload decomp r).length ≤ mm) :
    (download_symbol comp cs mm [Candidate.resp r] e db fs).fs.final =
      some (if r.gzipEncoded then r.body else comp r.body) ∧
    stream_decompressed_data decomp cs mm
        (if r.gzipEncoded then r.body else comp r.body)
      = upstream_payload decomp r := by
  constructor
  · have hsan := sanitizable_of_validate hv
    simp only [download_symbol, hv, if_true, downloadLoop, if_pos h200]
    rw [save_complete comp cs mm { e with found := true } r db fs hcs hsan
      hsize hio]
    simp only [Bool.false_eq_true, if_false]
  · unfold stream_decompressed_data upstream_payload
    by_cases hgz : r.gzipEncoded = true
    · simp only [hgz, if_true]
      exact streamChunks_of_le cs mm hcs (decomp r.body) 0
        (by simpa [upstream_payload, hgz] using hmem)
    · simp only [Bool.not_eq_true] at hgz
      simp only [hgz, Bool.false_eq_true, if_false, hrt]
      exact streamChunks_of_le cs mm hcs r.body 0
        (by simpa [upstream_payload, hgz] using hmem)

/-- Counterexample to C5 as stated: with chunk size 1 and memory ceiling 1,
a successfully fetched 3-byte raw payload is stored whole but the
decompressed stream serves only 2 of its bytes (the identity codec stands in
for gzip, for which decompress-after-compress is the identity). -/
theorem claim_C5_counterexample :
    (download_symbol (fun l => l) 1 1
      [Candidate.resp ⟨200, some 3, none, false, [1, 2, 3], false⟩]
      ⟨"n", "g", "f", true, false⟩ [⟨"n", "g", "f", true, false⟩]
      ⟨none, none⟩).fs.final = some [1, 2, 3] ∧
    stream_decompressed_data (fun l => l) 1 1 [1, 2, 3] = [1, 2] ∧
    upstream_payload (fun l => l)
      ⟨200, some 3, none, false, [1, 2, 3], false⟩ = [1, 2, 3] ∧
    ([1, 2] : List Nat) ≠ [1, 2, 3] := by
  refine ⟨?_, ?_, by decide, by decide⟩ <;>
    simp [download_symbol, downloadLoop, download_and_save_symbol,
      sanitize_path_component, hasDoubleDot, pyFullMatch, allowedChar,
      get_pdb_size, streamLoop, finalize_download, validate_pdb_entry_fields,
      validLen, stream_decompressed_data, streamChunks]
  all_goals decide

/-- Witness for C5 at a concrete 2-byte raw transfer within the ceiling. -/
theorem claim_C5_witness :
    (download_symbol (fun l => l) 2 10
      [Candidate.resp ⟨200, some 2, none, false, [5, 6], false⟩]
      ⟨"n", "g", "f", true, false⟩ [⟨"n", "g", "f", true, false⟩]
      ⟨none, none⟩).fs.final = some [5, 6] ∧
    stream_decompressed_data (fun l => l) 2 10 [5, 6] = [5, 6] :=
  claim_C5 (fun l => l) (fun l => l) 2 10 ⟨"n", "g", "f", true, false⟩
    ⟨200, some 2, none, false, [5, 6], false⟩
    [⟨"n", "g", "f", true, false⟩] ⟨none, none⟩
    (by decide) (fun x => rfl) (by decide) rfl rfl rfl (by decide)

/-- Specification for the amended C8, independent of the logging logic: the
cumulative percentage reached at each successive chunk boundary of a
transfer, following the source's chunking rule — each read asks for
`min chunkSize remaining` bytes and receives as many as the body still
holds; the sequence ends when the declared size is reached or the body runs
out. -/
def boundaryPercents (cs size : Nat) (body : List Nat) (dl : Nat) :
    List Nat :=
  if dl < size then
    let c := min cs (size - dl)
    let k := min c body.length
    if h : k = 0 then []
    else (dl + k) * 100 / size :: boundaryPercents cs size (body.drop c)
      (dl + k)
  else []
termination_by body.length
decreasing_by
  unfold k c at h
  simp only [List.length_drop]
  omega

/-- Specification for the amended C8's emission rule: walk the boundary
percentages keeping the highest 5%-bucket reported so far (initially below
every bucket) and report exactly those percentages whose bucket strictly
exceeds it. -/
def emitSpec (ll : Int) : List Nat → List Nat
  | [] => []
  | p :: ps =>
    if ll < ((p / 5 : Nat) : Int) then p :: emitSpec ((p / 5 : Nat) : Int) ps
    else emitSpec ll ps

/-- The transfer loop's progress log is exactly the emission specification
applied to the chunk-boundary percentages: a message is emitted at a chunk
boundary precisely when its 5%-bucket exceeds the highest bucket reported so
far. -/
theorem streamLoop_log_spec (cs mm size : Nat) (ioe : Bool) :
    ∀ body : List Nat, ∀ dl cim : Nat, ∀ ll : Int,
      (streamLoop cs mm size ioe body dl cim ll).log
        = emitSpec ll (boundaryPercents cs size body dl) := by
  intro body
  induction body using strong_length_ind with
  | ind body ih =>
    intro dl cim ll
    rw [streamLoop, boundaryPercents]
    by_cases hdl : dl < size
    · have hklen : (body.take (min cs (size - dl))).length
          = min (min cs (size - dl)) body.length := by
        simp [List.length_take]
      by_cases hne : (body.take (min cs (size - dl))).isEmpty = true
      · have hk : min (min cs (size - dl)) body.length = 0 := by
          have h0 := congrArg List.length (List.isEmpty_iff.mp hne)
          simpa [List.length_take] using h0
        simp only [if_pos hdl, dif_pos hne, dif_pos hk]
        rfl
      · have hk : ¬ (body.take (min cs (size - dl))).length = 0 := by
          simp only [List.isEmpty_iff, ← List.length_pos] at hne
          omega
        have hkmin : ¬ min (min cs (size - dl)) body.length = 0 := by
          rw [← hklen]
          exact hk
        have hdrop : (body.drop (min cs (size - dl))).length
            < body.length := by
          rw [hklen] at hk
          simp only [List.length_drop]
          omega
        have hih : ∀ cim2 : Nat, ∀ ll2 : Int,
            (streamLoop cs mm size ioe (body.drop (min cs (size - dl)))
                (dl + (body.take (min cs (size - dl))).length)
                cim2 ll2).log
              = emitSpec ll2 (boundaryPercents cs size
                  (body.drop (min cs (size - dl)))
                  (dl + (body.take (min cs (size - dl))).length)) :=
          fun cim2 ll2 => ih _ hdrop _ cim2 ll2
        simp only [if_pos hdl, dif_neg hne, dif_neg hkmin]
        simp only [← hklen, emitSpec]
        by_cases hlog : ll <
            ((((dl + (body.take (min cs (size - dl))).length) * 100 / size)
              / 5 : Nat) : Int)
        · simp only [if_pos hlog, List.singleton_append, List.cons.injEq,
            true_and]
          exact hih _ _
        · simp only [if_neg hlog, List.nil_append]
          exact hih _ _
    · simp [if_neg hdl, emitSpec]

/-- Claim C8 (corrected): progress messages are emitted exactly at those
chunk boundaries whose cumulative percentage falls in a 5%-bucket strictly
above the highest bucket already reported — so every chunk that moves the
percentage into a new, higher bucket emits exactly one message, while
boundaries skipped inside a single chunk are never separately reported —
and the reported 5%-buckets are strictly increasing across the transfer, so
no boundary is ever reported twice. -/
theorem claim_C8 (cs mm size : Nat) (ioe : Bool) (body : List Nat) :
    (streamLoop cs mm size ioe body 0 0 (-1)).log
      = emitSpec (-1) (boundaryPercents cs size body 0) ∧
    ((streamLoop cs mm size ioe body 0 0 (-1)).log).Pairwise
      (fun a b => a / 5 < b / 5) :=
  ⟨streamLoop_log_spec cs mm size ioe body 0 0 (-1),
   (streamLoop_log_mono cs mm size ioe body 0 0 (-1)).2⟩

/-- Counterexample to C8 as stated: a single 2-byte chunk takes the transfer
from 0% straight to 100%; the 50% boundary is crossed but no message for it
(nor any bucket between 5% and 95%) is ever emitted — only "100%". -/
theorem claim_C8_counterexample :
    (streamLoop 4 100 2 false [9, 9] 0 0 (-1)).downloaded = 2 ∧
    (streamLoop 4 100 2 false [9, 9] 0 0 (-1)).log = [100] ∧
    ¬ (50 ∈ (streamLoop 4 100 2 false [9, 9] 0 0 (-1)).log) := by
  refine ⟨?_, ?_, ?_⟩ <;> simp [streamLoop]

/-- Claim C6 (corrected): running the startup reconcile pass with stale
downloading entries (whose fields sanitize) leaves zero entries downloading,
removes every stale entry's derived temp file, and leaves every file whose
path differs from all those temp paths untouched. (As stated the claim is
false: a published artifact whose filename itself starts with "tmp_" can
share its path with a stale entry's temp file and is then deleted — see the
counterexample.) -/
theorem claim_C6 (db : List SymbolEntry) (fs : List FPath)
    (hval : ∀ e ∈ db, e.downloading = true → sanitizable e = true) :
    (∀ r ∈ (cleanup_stale_downloads db fs).1, r.downloading = false) ∧
    (∀ e ∈ db, e.downloading = true →
      tmp_path e.pdbname e.guid e.pdbfile
        ∉ (cleanup_stale_downloads db fs).2) ∧
    (∀ p ∈ fs, (∀ e ∈ db, e.downloading = true →
        p ≠ tmp_path e.pdbname e.guid e.pdbfile) →
      p ∈ (cleanup_stale_downloads db fs).2) := by
  refine ⟨?_, ?_, ?_⟩
  · intro r hr
    by_contra hd
    simp only [Bool.not_eq_false] at hd
    obtain ⟨hmem, hkeys⟩ := cleanupLoop_not_downloading
      (find_still_downloading db) db fs r hr hd
    have hrds : r ∈ find_still_downloading db := by
      simp [find_still_downloading, List.mem_filter, hmem, hd]
    have hfalse := hkeys r hrds
    rw [keyMatch_self r] at hfalse
    cases hfalse
  · intro e he hd
    exact cleanupLoop_removed (find_still_downloading db) db fs e
      (by simp [find_still_downloading, List.mem_filter, he, hd])
      (hval e he hd)
  · intro p hp hne
    refine cleanupLoop_frame (find_still_downloading db) db fs p hp ?_
    intro d hd
    exact hne d (List.mem_of_mem_filter hd)
      (by simpa using List.of_mem_filter hd)

/-- Counterexample to C6 as stated: key ("g","X") is stale in-flight and key
("g","tmp_X") has a published artifact at n/g/tmp_X.gzip — which is exactly
the stale entry's derived temp path, so reconcile deletes the published
artifact. -/
theorem claim_C6_counterexample :
    (⟨"n", "g", "tmp_X", false, true⟩ : SymbolEntry).found = true ∧
    final_path "n" "g" "tmp_X" = tmp_path "n" "g" "X" ∧
    final_path "n" "g" "tmp_X" ∈ [["n", "g", "tmp_X.gzip"]] ∧
    final_path "n" "g" "tmp_X" ∉ (cleanup_stale_downloads
      [⟨"n", "g", "X", true, false⟩, ⟨"n", "g", "tmp_X", false, true⟩]
      [["n", "g", "tmp_X.gzip"]]).2 := by
  refine ⟨by decide, by decide, by decide, by decide⟩

/-- Witness for C6: two stale entries with temp files plus one published
artifact; afterwards the first row is clear, both temp files are gone and the
published artifact survives. -/
theorem claim_C6_witness :
    (⟨"n", "g", "X", false, false⟩ : SymbolEntry).downloading = false ∧
    tmp_path "n" "g" "X" ∉ (cleanup_stale_downloads
      [⟨"n", "g", "X", true, false⟩, ⟨"m", "h", "Y", true, true⟩]
      [["n", "g", "tmp_X.gzip"], ["m", "h", "tmp_Y.gzip"],
       ["n", "g", "X.gzip"]]).2 ∧
    tmp_path "m" "h" "Y" ∉ (cleanup_stale_downloads
      [⟨"n", "g", "X", true, false⟩, ⟨"m", "h", "Y", true, true⟩]
      [["n", "g", "tmp_X.gzip"], ["m", "h", "tmp_Y.gzip"],
       ["n", "g", "X.gzip"]]).2 ∧
    ["n", "g", "X.gzip"] ∈ (cleanup_stale_downloads
      [⟨"n", "g", "X", true, false⟩, ⟨"m", "h", "Y", true, true⟩]
      [["n", "g", "tmp_X.gzip"], ["m", "h", "tmp_Y.gzip"],
       ["n", "g", "X.gzip"]]).2 :=
  ⟨(claim_C6 [⟨"n", "g", "X", true, false⟩, ⟨"m", "h", "Y", true, true⟩]
      [["n", "g", "tmp_X.gzip"], ["m", "h", "tmp_Y.gzip"],
       ["n", "g", "X.gzip"]] (by decide)).1
      ⟨"n", "g", "X", false, false⟩ (by decide),
   (claim_C6 [⟨"n", "g", "X", true, false⟩, ⟨"m", "h", "Y", true, true⟩]
      [["n", "g", "tmp_X.gzip"], ["m", "h", "tmp_Y.gzip"],
       ["n", "g", "X.gzip"]] (by decide)).2.1
      ⟨"n", "g", "X", true, false⟩ (by decide) rfl,
   (claim_C6 [⟨"n", "g", "X", true, false⟩, ⟨"m", "h", "Y", true, true⟩]
      [["n", "g", "tmp_X.gzip"], ["m", "h", "tmp_Y.gzip"],
       ["n", "g", "X.gzip"]] (by decide)).2.1
      ⟨"m", "h", "Y", true, true⟩ (by decide) rfl,
   (claim_C6 [⟨"n", "g", "X", true, false⟩, ⟨"m", "h", "Y", true, true⟩]
      [["n", "g", "tmp_X.gzip"], ["m", "h", "tmp_Y.gzip"],
       ["n", "g", "X.gzip"]] (by decide)).2.2
      ["n", "g", "X.gzip"] (by decide) (by decide)⟩

/-- On the miss path, finding the ledger entry already marked downloading
returns the 404 response and changes nothing: no task scheduled, no row
written. -/
theorem get_symbol_inflight (decomp : List Nat → List Nat) (cs mm : Nat)
    (pdbname pdbfile guid : String) (isG : Bool) (st : RouteState)
    (hv : validate_pdb_entry_fields pdbname guid pdbfile = true)
    (hmiss : st.fileExists = false) (e : SymbolEntry)
    (hfind : find_pdb_entry st.db guid pdbfile = some e)
    (hdl : e.downloading = true) :
    get_symbol decomp cs mm pdbname pdbfile guid isG st
      = (RouteResp.notFound, st) := by
  obtain ⟨fe, fc, sdb, stk⟩ := st
  have hm : fe = false := hmiss
  subst hm
  have hf : find_pdb_entry sdb guid pdbfile = some e := hfind
  simp only [get_symbol, hv, Bool.not_true, Bool.false_eq_true, if_false,
    Bool.not_false, if_true, create_or_find_pdb_entry, hf, hdl]

/-- Claim C3 (confirmed): a resolve call that finds the ledger entry already
downloading returns the miss response without scheduling another fetch; two
resolve calls for the same key in immediate succession on the miss path
schedule at most one background fetch in total. -/
theorem claim_C3 (decomp : List Nat → List Nat) (cs mm : Nat)
    (pdbname pdbfile guid : String) (isG : Bool) (st : RouteState)
    (hv : validate_pdb_entry_fields pdbname guid pdbfile = true)
    (hmiss : st.fileExists = false) :
    (∀ e, find_pdb_entry st.db guid pdbfile = some e →
      e.downloading = true →
      get_symbol decomp cs mm pdbname pdbfile guid isG st
        = (RouteResp.notFound, st)) ∧
    (get_symbol decomp cs mm pdbname pdbfile guid isG
        (get_symbol decomp cs mm pdbname pdbfile guid isG st).2).2.tasks.length
      ≤ st.tasks.length + 1 := by
  constructor
  · intro e hfind hdl
    exact get_symbol_inflight decomp cs mm pdbname pdbfile guid isG st hv
      hmiss e hfind hdl
  · obtain ⟨fe, fc, sdb, stk⟩ := st
    have hm : fe = false := hmiss
    subst hm
    cases hfind : find_pdb_entry sdb guid pdbfile with
    | some e0 =>
      have hkey := keyMatch_eq (List.find?_some hfind)
      by_cases hdl : e0.downloading = true
      · rw [get_symbol_inflight decomp cs mm pdbname pdbfile guid isG
          ⟨false, fc, sdb, stk⟩ hv rfl e0 hfind hdl]
        rw [get_symbol_inflight decomp cs mm pdbname pdbfile guid isG
          ⟨false, fc, sdb, stk⟩ hv rfl e0 hfind hdl]
        exact Nat.le_succ _
      · simp only [Bool.not_eq_true] at hdl
        have h1 : get_symbol decomp cs mm pdbname pdbfile guid isG
            ⟨false, fc, sdb, stk⟩
            = (RouteResp.notFound,
               ⟨false, fc,
                modify_pdb_entry sdb { e0 with downloading := true },
                stk ++ [{ e0 with downloading := true }]⟩) := by
          simp only [get_symbol, hv, Bool.not_true, Bool.false_eq_true,
            if_false, Bool.not_false, if_true, create_or_find_pdb_entry,
            hfind, hdl]
        rw [h1]
        have hsome : (find_pdb_entry sdb e0.guid e0.pdbfile).isSome
            = true := by
          rw [hkey.1, hkey.2, hfind]
          rfl
        have hfind2 : find_pdb_entry
            (modify_pdb_entry sdb { e0 with downloading := true })
            guid pdbfile = some { e0 with downloading := true } := by
          rw [← hkey.1, ← hkey.2]
          exact find_modify_self { e0 with downloading := true } sdb hsome
        have h2 := get_symbol_inflight decomp cs mm pdbname pdbfile guid
          isG ⟨false, fc,
            modify_pdb_entry sdb { e0 with downloading := true },
            stk ++ [{ e0 with downloading := true }]⟩ hv rfl
          { e0 with downloading := true } hfind2 rfl
        show (get_symbol decomp cs mm pdbname pdbfile guid isG
          ⟨false, fc, modify_pdb_entry sdb { e0 with downloading := true },
           stk ++ [{ e0 with downloading := true }]⟩).2.tasks.length
          ≤ stk.length + 1
        rw [h2]
        simp
    | none =>
      have h1 : get_symbol decomp cs mm pdbname pdbfile guid isG
          ⟨false, fc, sdb, stk⟩
          = (RouteResp.notFound,
             ⟨false, fc,
              modify_pdb_entry (sdb ++ [⟨pdbname, guid, pdbfile, false,
                false⟩]) ⟨pdbname, guid, pdbfile, true, false⟩,
              stk ++ [⟨pdbname, guid, pdbfile, true, false⟩]⟩) := by
        simp only [get_symbol, hv, Bool.not_true, Bool.false_eq_true,
          if_false, Bool.not_false, if_true, create_or_find_pdb_entry,
          hfind, create_pdb_entry]
      rw [h1]
      have hfresh := find_append_fresh ⟨pdbname, guid, pdbfile, false, false⟩
        guid pdbfile (by simp [keyMatch]) sdb hfind
      have hsome : (find_pdb_entry (sdb ++ [⟨pdbname, guid, pdbfile, false,
          false⟩]) guid pdbfile).isSome = true := by
        rw [hfresh]; rfl
      have hfind2 : find_pdb_entry
          (modify_pdb_entry (sdb ++ [⟨pdbname, guid, pdbfile, false, false⟩])
            ⟨pdbname, guid, pdbfile, true, false⟩) guid pdbfile
          = some ⟨pdbname, guid, pdbfile, true, false⟩ :=
        find_modify_self
          (⟨pdbname, guid, pdbfile, true, false⟩ : SymbolEntry)
          (sdb ++ [⟨pdbname, guid, pdbfile, false, false⟩]) hsome
      have h2 := get_symbol_inflight decomp cs mm pdbname pdbfile guid isG
        ⟨false, fc,
         modify_pdb_entry (sdb ++ [⟨pdbname, guid, pdbfile, false, false⟩])
           ⟨pdbname, guid, pdbfile, true, false⟩,
         stk ++ [⟨pdbname, guid, pdbfile, true, false⟩]⟩ hv rfl
        ⟨pdbname, guid, pdbfile, true, false⟩ hfind2 rfl
      show (get_symbol decomp cs mm pdbname pdbfile guid isG
        ⟨false, fc,
         modify_pdb_entry (sdb ++ [⟨pdbname, guid, pdbfile, false, false⟩])
           ⟨pdbname, guid, pdbfile, true, false⟩,
         stk ++ [⟨pdbname, guid, pdbfile, true, false⟩]⟩).2.tasks.length
        ≤ stk.length + 1
      rw [h2]
      simp

/-- Witness for C3: a ledger whose entry for the key is in flight, and a
fresh state put through two successive resolves. -/
theorem claim_C3_witness :
    get_symbol (fun l => l) 4 100 "n" "f" "g" true
      ⟨false, [], [⟨"n", "g", "f", true, false⟩], []⟩
      = (RouteResp.notFound,
         ⟨false, [], [⟨"n", "g", "f", true, false⟩], []⟩) ∧
    (get_symbol (fun l => l) 4 100 "n" "f" "g" true
      (get_symbol (fun l => l) 4 100 "n" "f" "g" true
        ⟨false, [], [], []⟩).2).2.tasks.length
      ≤ ([] : List SymbolEntry).length + 1 :=
  ⟨(claim_C3 (fun l => l) 4 100 "n" "f" "g" true
      ⟨false, [], [⟨"n", "g", "f", true, false⟩], []⟩
      (by decide) rfl).1 ⟨"n", "g", "f", true, false⟩ (by decide) rfl,
   (claim_C3 (fun l => l) 4 100 "n" "f" "g" true
      ⟨false, [], [], []⟩ (by decide) rfl).2⟩

/-- Claim C10 (confirmed): on a cache hit the artifact is served and the
found=true argument of the hit-path find-or-create is applied only when a
fresh row is created; an existing row — in particular one with found=false —
is left entirely unchanged. -/
theorem claim_C10 (decomp : List Nat → List Nat) (cs mm : Nat)
    (pdbname pdbfile guid : String) (isG : Bool) (st : RouteState)
    (hv : validate_pdb_entry_fields pdbname guid pdbfile = true)
    (hhit : st.fileExists = true) :
    (∀ e, find_pdb_entry st.db guid pdbfile = some e →
      (get_symbol decomp cs mm pdbname pdbfile guid isG st).2 = st ∧
      (get_symbol decomp cs mm pdbname pdbfile guid isG st).1 =
        (if isG then RouteResp.fileGzip st.fileContent
         else RouteResp.stream (stream_decompressed_data decomp cs mm
            st.fileContent))) ∧
    (find_pdb_entry st.db guid pdbfile = none →
      (get_symbol decomp cs mm pdbname pdbfile guid isG st).2.db
        = st.db ++ [⟨pdbname, guid, pdbfile, false, true⟩] ∧
      (get_symbol decomp cs mm pdbname pdbfile guid isG st).2.tasks
        = st.tasks) := by
  obtain ⟨fe, fc, sdb, stk⟩ := st
  have hh : fe = true := hhit
  subst hh
  constructor
  · intro e hfind
    have hf : find_pdb_entry sdb guid pdbfile = some e := hfind
    simp only [get_symbol, hv, Bool.not_true, Bool.false_eq_true, if_false,
      Bool.not_true, create_or_find_pdb_entry, hf]
    cases isG <;> simp
  · intro hfind
    have hf : find_pdb_entry sdb guid pdbfile = none := hfind
    simp only [get_symbol, hv, Bool.not_true, Bool.false_eq_true, if_false,
      create_or_find_pdb_entry, hf, create_pdb_entry]
    cases isG <;> simp

/-- Witness for C10: a hit state whose existing row has found=false stays
untouched while the artifact is served; and a hit state with no row gets one
created with found=true. -/
theorem claim_C10_witness :
    (get_symbol (fun l => l) 4 100 "n" "f" "g" true
      ⟨true, [9], [⟨"n", "g", "f", false, false⟩], []⟩).2
      = ⟨true, [9], [⟨"n", "g", "f", false, false⟩], []⟩ ∧
    (get_symbol (fun l => l) 4 100 "n" "f" "g" false
      ⟨true, [9], [], []⟩).2.db
      = [] ++ [⟨"n", "g", "f", false, true⟩] :=
  ⟨((claim_C10 (fun l => l) 4 100 "n" "f" "g" true
      ⟨true, [9], [⟨"n", "g", "f", false, false⟩], []⟩
      (by decide) rfl).1 ⟨"n", "g", "f", false, false⟩ (by decide)).1,
   ((claim_C10 (fun l => l) 4 100 "n" "f" "g" false
      ⟨true, [9], [], []⟩ (by decide) rfl).2 (by decide)).1⟩

end FastSymApi
